import Mathlib

/-!
Verification development for the `z+o_scaniQ.py` IQ scanner script of the
DragonSyncIOS repository.  The Python source is shallowly embedded below:
pure numpy expressions become Lean functions, the stateful scan loop becomes
an explicit trace-producing recursion, machine floats are idealised as exact
real (or rational) arithmetic, and the numpy slice-assignment failure mode
(broadcast mismatch) is made explicit in the capture fill loop's result type.
-/

/- ===== Configuration constants (z+o_scaniQ.py, lines 9-18) ===== -/

/-- Python `range(start, stop, step)` for a positive step, as a list. -/
def pyRange (start stop step : Nat) : List Nat :=
  List.range' start ((stop - start + step - 1) / step) step

/-- `FREQ_LIST = list(range(870_000_000, 928_000_001, 3_000_000))`. -/
def FREQ_LIST : List Nat := pyRange 870000000 928000001 3000000

/-- `SAMPLE_RATE = 2_500_000`. -/
def SAMPLE_RATE : Nat := 2500000

/-- `RECORD_SEC = 5`. -/
def RECORD_SEC : Nat := 5

/-- `int(RECORD_SEC * SAMPLE_RATE)`, the Capture Buffer capacity. -/
def samplesTotal : Nat := RECORD_SEC * SAMPLE_RATE

/-- `PATTERN_HEX = 0xF17C1599`. -/
def PATTERN_HEX : Nat := 0xF17C1599

/-- `PATTERN_BITS = np.unpackbits(np.array(list(PATTERN_HEX.to_bytes(4, 'big'))))`:
the 32 bits of `PATTERN_HEX`, most significant first. -/
def PATTERN_BITS : List Bool :=
  (List.range 32).map (fun j => PATTERN_HEX.testBit (31 - j))

/- ===== Pattern demodulator (z+o_scaniQ.py, lines 26-31) =====

Complex samples are embedded as pairs `(re, im)` over a linear ordered
commutative ring, so that the sign of `np.angle` is exact: for `z ≠ 0`,
`atan2(im, re) > 0` iff `im > 0`, or `im = 0` and `re < 0` (angle `π`). -/

/-- `q * np.conj(p)` on pairs `(re, im)`. -/
def mulConj {α : Type} [CommRing α] (q p : α × α) : α × α :=
  (q.1 * p.1 + q.2 * p.2, q.2 * p.1 - q.1 * p.2)

/-- `np.angle z > 0`, computed exactly from the signs of the components:
`atan2(im, re)` is positive iff `im > 0`, or `im = 0 ∧ re < 0`. -/
def angPos {α : Type} [LinearOrderedCommRing α] (z : α × α) : Bool :=
  if 0 < z.2 then true else if z.2 = 0 ∧ z.1 < 0 then true else false

/-- The differential-phase bitstream
`bits = (np.angle(samples[1:] * np.conj(samples[:-1])) > 0)`:
bit `i` is set iff the angle of `samples[i+1] * conj(samples[i])` is positive. -/
def diffBits {α : Type} [LinearOrderedCommRing α] (samples : List (α × α)) : List Bool :=
  (samples.zip (samples.drop 1)).map (fun pq => angPos (mulConj pq.2 pq.1))

/-- Python substring search `pat in s` on bit lists: `pat` occurs as a
contiguous sublist of `l` (checked at every start position). -/
def containsBits (pat : List Bool) : List Bool → Bool
  | [] => pat.isEmpty
  | b :: rest => pat.isPrefixOf (b :: rest) || containsBits pat rest

/-- `detect_pattern(samples)`: render the bitstream and the pattern as digit
strings and test substring containment; one character per bit, so this is
exactly contiguous-sublist containment of `PATTERN_BITS` in the bitstream. -/
def detect_pattern {α : Type} [LinearOrderedCommRing α] (samples : List (α × α)) : Bool :=
  containsBits PATTERN_BITS (diffBits samples)

/-- The Boolean substring search agrees with the `<:+:` relation. -/
theorem containsBits_iff (pat l : List Bool) : containsBits pat l = true ↔ pat <:+: l := by
  induction l with
  | nil =>
    simp [containsBits, List.isEmpty_iff]
  | cons b rest ih =>
    simp only [containsBits, Bool.or_eq_true, List.isPrefixOf_iff_prefix, ih,
      List.infix_cons_iff]

/- ===== Capture fill loop (z+o_scaniQ.py, lines 64-73) =====

    idx = 0
    while idx < samples_total:
        sr = sdr.readStream(stream, [buff], len(buff))
        if sr.ret > 0:
            recorded[idx:idx+sr.ret] = buff[:sr.ret]
            idx += sr.ret

Each read is embedded as the valid prefix `buff[:sr.ret]` that it delivers
(the empty list for `sr.ret <= 0`).  The numpy slice assignment raises
`ValueError: could not broadcast ...` whenever `idx + sr.ret` exceeds the
buffer length, because the left-hand slice is clipped to the buffer while the
right-hand side keeps its full length; `FillResult.broadcastError` records
that exception.  A model run that exhausts its (finite) list of reads before
the buffer fills corresponds to the real loop still spinning; it is recorded
as `FillResult.starved` with the loop state at that point. -/

/-- Result of running the capture fill loop against a finite read schedule. -/
inductive FillResult (α : Type) where
  | filled (buf : List α)
  | starved (buf : List α) (idx : Nat)
  | broadcastError (idx : Nat)
  deriving DecidableEq

/-- The capture fill loop, processing reads in order while `idx < cap`. -/
def captureFillLoop {α : Type} (cap : Nat) (recorded : List α) (idx : Nat) :
    List (List α) → FillResult α
  | [] => if cap ≤ idx then .filled recorded else .starved recorded idx
  | c :: rest =>
    if cap ≤ idx then .filled recorded
    else if c.isEmpty then captureFillLoop cap recorded idx rest
    else if idx + c.length ≤ cap then
      captureFillLoop cap (recorded.take idx ++ c ++ recorded.drop (idx + c.length))
        (idx + c.length) rest
    else .broadcastError idx

/- ===== Bit-encoding helper (test harness for the demodulator) =====

`encodeFrom z bs` encodes a bitstream into samples by differential phase:
starting at `z`, each 1 bit multiplies by `i` (phase +90 degrees) and each 0
bit by `-i` (phase -90 degrees), so consecutive products have angle exactly
`±π/2`. -/

/-- Multiply `(re, im)` by `i`. -/
def rotP (z : ℚ × ℚ) : ℚ × ℚ := (-z.2, z.1)

/-- Multiply `(re, im)` by `-i`. -/
def rotN (z : ℚ × ℚ) : ℚ × ℚ := (z.2, -z.1)

/-- One encoding step for bit `b`. -/
def rotStep (b : Bool) (z : ℚ × ℚ) : ℚ × ℚ := if b then rotP z else rotN z

/-- Encode a bitstream into differential-phase samples starting from `z`. -/
def encodeFrom : ℚ × ℚ → List Bool → List (ℚ × ℚ)
  | z, [] => [z]
  | z, b :: bs => z :: encodeFrom (rotStep b z) bs

/-- Encode a bitstream into samples, starting from the unit sample `(1, 0)`. -/
def encodeBits (bs : List Bool) : List (ℚ × ℚ) := encodeFrom (1, 0) bs

/-- Flip bit `k` of a bit list. -/
def flipAt (l : List Bool) (k : Nat) : List Bool := l.set k (!(l.getD k false))

/- ===== Demodulator lemmas ===== -/

theorem encodeFrom_cons (z : ℚ × ℚ) (bs : List Bool) :
    ∃ rest, encodeFrom z bs = z :: rest := by
  cases bs <;> exact ⟨_, rfl⟩

theorem diffBits_cons₂ {α : Type} [LinearOrderedCommRing α] (z w : α × α)
    (rest : List (α × α)) :
    diffBits (z :: w :: rest) = angPos (mulConj w z) :: diffBits (w :: rest) := by
  simp [diffBits]

theorem angPos_rotStep (b : Bool) (z : ℚ × ℚ) (hz : 0 < z.1 ^ 2 + z.2 ^ 2) :
    angPos (mulConj (rotStep b z) z) = b := by
  cases b
  · have h2 : (mulConj (rotStep false z) z).2 < 0 := by
      show -z.1 * z.1 - z.2 * z.2 < 0
      nlinarith
    unfold angPos
    rw [if_neg (by linarith), if_neg (fun h => absurd h.1 (by linarith))]
  · have h2 : 0 < (mulConj (rotStep true z) z).2 := by
      show 0 < z.1 * z.1 - -z.2 * z.2
      nlinarith
    unfold angPos
    rw [if_pos h2]

theorem normSq_rotStep (b : Bool) (z : ℚ × ℚ) :
    (rotStep b z).1 ^ 2 + (rotStep b z).2 ^ 2 = z.1 ^ 2 + z.2 ^ 2 := by
  cases b <;> simp [rotStep, rotP, rotN] <;> ring

theorem diffBits_encodeFrom (bs : List Bool) :
    ∀ z : ℚ × ℚ, 0 < z.1 ^ 2 + z.2 ^ 2 → diffBits (encodeFrom z bs) = bs := by
  induction bs with
  | nil => intro z _; simp [encodeFrom, diffBits]
  | cons b t ih =>
    intro z hz
    obtain ⟨rest, hrest⟩ := encodeFrom_cons (rotStep b z) t
    have hnext : 0 < (rotStep b z).1 ^ 2 + (rotStep b z).2 ^ 2 := by
      rw [normSq_rotStep]; exact hz
    calc diffBits (encodeFrom z (b :: t))
        = diffBits (z :: encodeFrom (rotStep b z) t) := by rw [encodeFrom]
      _ = b :: t := by
          rw [hrest, diffBits_cons₂, ← hrest, angPos_rotStep b z hz, ih _ hnext]

theorem diffBits_encodeBits (bs : List Bool) : diffBits (encodeBits bs) = bs :=
  diffBits_encodeFrom bs (1, 0) (by norm_num)

/- ===== Energy detector (z+o_scaniQ.py, line 60) =====

`power_db = 10 * np.log10(np.mean(np.abs(buff[:sr.ret])**2) + 1e-12)`.
Complex-float arithmetic is idealised over the reals: `np.abs` is the
magnitude `sqrt(re^2 + im^2)`, and `np.mean` divides the sum by the number of
elements of the sliced array. -/

/-- The probe power score computed by the scan loop. -/
noncomputable def powerDb (buff : List (ℝ × ℝ)) (ret : Nat) : ℝ :=
  10 * Real.logb 10
    ((((buff.take ret).map (fun z => Real.sqrt (z.1 ^ 2 + z.2 ^ 2) ^ 2)).sum)
        / ((((buff.take ret).map (fun z => Real.sqrt (z.1 ^ 2 + z.2 ^ 2) ^ 2)).length : ℝ))
      + 1e-12)

/-- The spec's description of the same quantity: mean squared magnitude over
the valid prefix of `actual_count` samples. -/
noncomputable def meanSqMag (buff : List (ℝ × ℝ)) (ret : Nat) : ℝ :=
  (((buff.take ret).map (fun z => z.1 ^ 2 + z.2 ^ 2)).sum) / (ret : ℝ)

/-- `THRESHOLD_DB = -45`. -/
noncomputable def THRESHOLD_DB : ℝ := -45

theorem powerDb_eq (buff : List (ℝ × ℝ)) (ret : Nat) (_h1 : 0 < ret)
    (h2 : ret ≤ buff.length) :
    powerDb buff ret = 10 * Real.logb 10 (meanSqMag buff ret + 1e-12) := by
  unfold powerDb meanSqMag
  have hm : (buff.take ret).map (fun z => Real.sqrt (z.1 ^ 2 + z.2 ^ 2) ^ 2)
      = (buff.take ret).map (fun z => z.1 ^ 2 + z.2 ^ 2) :=
    List.map_congr_left (fun z _ => Real.sq_sqrt (by positivity))
  rw [hm, List.length_map, List.length_take, min_eq_left h2]

theorem meanSqMag_nonneg (buff : List (ℝ × ℝ)) (ret : Nat) :
    0 ≤ meanSqMag buff ret := by
  unfold meanSqMag
  refine div_nonneg (List.sum_nonneg ?_) (Nat.cast_nonneg ret)
  intro x hx
  obtain ⟨z, _, rfl⟩ := List.mem_map.mp hx
  positivity

/- ===== Claim theorems: demodulator and capture fill ===== -/

/-- Claim C2: `detect_pattern` returns true iff the big-endian 32-bit
expansion of `0xF17C1599` occurs as a contiguous subsequence of the
differential-phase bitstream; on a bitstream encoding the pattern it returns
true, and flipping any single encoded bit of an exact pattern encoding makes
it return false. -/
theorem C2_detect_pattern_correct :
    (∀ samples : List (ℚ × ℚ),
        detect_pattern samples = true ↔ PATTERN_BITS <:+: diffBits samples)
    ∧ (∀ bs : List Bool, PATTERN_BITS <:+: bs → detect_pattern (encodeBits bs) = true)
    ∧ (∀ k, k < 32 → detect_pattern (encodeBits (flipAt PATTERN_BITS k)) = false) := by
  refine ⟨fun samples => containsBits_iff _ _, ?_, ?_⟩
  · intro bs h
    unfold detect_pattern
    rw [diffBits_encodeBits]
    exact (containsBits_iff _ _).mpr h
  · intro k hk
    unfold detect_pattern
    rw [diffBits_encodeBits]
    revert hk
    revert k
    decide

/-- Witness for C2 at a concrete input: a stream encoding exactly the
pattern is detected. -/
theorem C2_detect_pattern_correct_witness :
    detect_pattern (encodeBits PATTERN_BITS) = true :=
  C2_detect_pattern_correct.2.1 PATTERN_BITS List.infix_rfl

/-- Claim C10: on fewer than 33 samples the bitstream is shorter than the
32-bit pattern, so `detect_pattern` returns false (and is total). -/
theorem C10_short_input_false (samples : List (ℚ × ℚ))
    (h : samples.length < 33) : detect_pattern samples = false := by
  cases hdp : detect_pattern samples
  · rfl
  · exfalso
    have hinf : PATTERN_BITS <:+: diffBits samples := (containsBits_iff _ _).mp hdp
    have hlen : PATTERN_BITS.length ≤ (diffBits samples).length :=
      List.IsInfix.length_le hinf
    have h32 : PATTERN_BITS.length = 32 := by decide
    have hd : (diffBits samples).length = min samples.length (samples.length - 1) := by
      simp [diffBits]
    rw [h32, hd] at hlen
    omega

/-- Witness for C10 at a concrete input: the empty capture prefix. -/
theorem C10_short_input_false_witness :
    ([] : List (ℚ × ℚ)).length < 33 ∧ detect_pattern ([] : List (ℚ × ℚ)) = false :=
  ⟨by decide, C10_short_input_false [] (by decide)⟩

/-- Any read whose valid prefix straddles the remaining capacity makes the
numpy slice assignment fail (left-hand slice clipped, right-hand side not). -/
theorem captureFillLoop_straddle {α : Type} (cap idx : Nat) (recorded : List α)
    (c : List α) (rest : List (List α)) (hidx : idx < cap)
    (hc : cap < idx + c.length) :
    captureFillLoop cap recorded idx (c :: rest) = FillResult.broadcastError idx := by
  have hlen : 0 < c.length := by omega
  have hne : c.isEmpty = false := by
    cases c
    · simp at hlen
    · rfl
  unfold captureFillLoop
  split_ifs with h1 h2 h3
  · exact absurd h1 (by omega)
  · simp [h2] at hne
  · exact absurd h3 (by omega)
  · rfl

/-- Claim C1 (code bug): the capture fill loop does not truncate a read at
capacity — a read straddling the remaining space raises a numpy broadcast
error instead of completing the buffer.  Shown on a miniature instance
(capacity 2, one read of 3 samples); moreover the real capacity
`RECORD_SEC * SAMPLE_RATE = 12_500_000` is not a multiple of the scratch
block size 1024 (remainder 32), so a device delivering full blocks drives
the loop into exactly this state. -/
theorem C1_capture_straddle_broadcast_error :
    captureFillLoop 2 [(0 : ℕ), 0] 0 [[1, 2, 3]] = FillResult.broadcastError 0
    ∧ samplesTotal % 1024 = 32 :=
  ⟨by decide, by decide⟩

/-- Claim C4: for every sample block with `actual_count > 0`, the power score
equals `10 * log10(mean(|sample|^2 over the valid prefix) + 1e-12)`. -/
theorem C4_power_score_formula (buff : List (ℝ × ℝ)) (ret : Nat)
    (h1 : 0 < ret) (h2 : ret ≤ buff.length) :
    powerDb buff ret = 10 * Real.logb 10 (meanSqMag buff ret + 1e-12) :=
  powerDb_eq buff ret h1 h2

/-- Witness for C4 at a concrete block. -/
theorem C4_power_score_formula_witness :
    0 < 1 ∧ 1 ≤ ([((1 : ℝ), 0)]).length ∧
      powerDb [((1 : ℝ), 0)] 1 = 10 * Real.logb 10 (meanSqMag [((1 : ℝ), 0)] 1 + 1e-12) :=
  ⟨by decide, by decide, C4_power_score_formula _ _ (by decide) (by decide)⟩

/- ===== Decimal rendering and parsing (log line / publish payload) =====

Python string formatting is embedded at the character-list level
(`List Char`): `str` of a natural number renders base-10 digits, `:.1f` and
`:.2f` render a value already rounded to deci/centi units, and the parsers
below invert these renderings. -/

/-- Numeric value of a digit character. -/
def charVal (c : Char) : Nat := c.toNat - 48

/-- Is `c` one of the characters `0`-`9`? -/
def isDigitCh (c : Char) : Bool := decide (48 ≤ c.toNat) && decide (c.toNat ≤ 57)

/-- Base-10 rendering of a natural number, most significant digit first. -/
def natChars (n : Nat) : List Char :=
  if n = 0 then ['0'] else (Nat.digits 10 n).reverse.map Nat.digitChar

/-- Parse a non-empty all-digit character list as a natural number. -/
def parseNatChars (s : List Char) : Option Nat :=
  if (!s.isEmpty) && s.all isDigitCh then
    some (s.foldl (fun a c => a * 10 + charVal c) 0)
  else none

theorem digitChar_isDigit (d : Nat) (hd : d < 10) : isDigitCh (Nat.digitChar d) = true := by
  revert hd
  revert d
  decide

theorem charVal_digitChar (d : Nat) (hd : d < 10) : charVal (Nat.digitChar d) = d := by
  revert hd
  revert d
  decide

theorem foldl_digit_step (l : List Nat) (acc : Nat) :
    List.foldl (fun a d => a * 10 + d) acc l
      = acc * 10 ^ l.length + Nat.ofDigits 10 l.reverse := by
  induction l generalizing acc with
  | nil => simp
  | cons d t ih =>
    simp only [List.foldl_cons, List.length_cons, List.reverse_cons, ih,
      Nat.ofDigits_append, Nat.ofDigits_singleton, List.length_reverse]
    ring

theorem foldl_charVal (l : List Nat) (acc : Nat) (h : ∀ d ∈ l, d < 10) :
    List.foldl (fun a c => a * 10 + charVal c) acc (l.map Nat.digitChar)
      = List.foldl (fun a d => a * 10 + d) acc l := by
  induction l generalizing acc with
  | nil => rfl
  | cons d t ih =>
    simp only [List.map_cons, List.foldl_cons,
      charVal_digitChar d (h d (by simp))]
    exact ih _ (fun x hx => h x (by simp [hx]))

theorem natChars_all_digit (n : Nat) :
    ∀ c ∈ natChars n, isDigitCh c = true := by
  intro c hc
  unfold natChars at hc
  split at hc
  · simp at hc
    rw [hc]
    decide
  · obtain ⟨d, hd, rfl⟩ := List.mem_map.mp hc
    exact digitChar_isDigit d
      (Nat.digits_lt_base (by norm_num) (List.mem_reverse.mp hd))

theorem natChars_ne_nil (n : Nat) : natChars n ≠ [] := by
  unfold natChars
  split
  · simp
  · simp [Nat.digits_ne_nil_iff_ne_zero, *]

theorem parseNatChars_natChars (n : Nat) : parseNatChars (natChars n) = some n := by
  unfold parseNatChars
  rw [if_pos]
  · by_cases h0 : n = 0
    · subst h0; rfl
    · unfold natChars
      rw [if_neg h0]
      have hrev : ∀ d ∈ (Nat.digits 10 n).reverse, d < 10 := fun d hd =>
        Nat.digits_lt_base (by norm_num) (List.mem_reverse.mp hd)
      rw [foldl_charVal _ _ hrev, foldl_digit_step]
      simp [Nat.ofDigits_digits]
  · rw [Bool.and_eq_true]
    constructor
    · cases hn : natChars n
      · exact absurd hn (natChars_ne_nil n)
      · rfl
    · exact List.all_eq_true.mpr (natChars_all_digit n)

/-- Split a character list at the first occurrence of the decimal point. -/
def splitDot : List Char → List Char × Option (List Char)
  | [] => ([], none)
  | c :: rest =>
    if c = '.' then ([], some rest)
    else ((c :: (splitDot rest).1), (splitDot rest).2)

theorem splitDot_append (a b : List Char) (ha : '.' ∉ a) :
    splitDot (a ++ '.' :: b) = (a, some b) := by
  induction a with
  | nil => simp [splitDot]
  | cons c t ih =>
    have hc : ¬(c = '.') := fun h => ha (by simp [h])
    have ht : '.' ∉ t := fun h => ha (List.mem_cons_of_mem c h)
    simp only [List.cons_append, splitDot, if_neg hc, List.append_eq, ih ht]

theorem natChars_no_dot (n : Nat) : '.' ∉ natChars n := by
  intro h
  have := natChars_all_digit n _ h
  simp [isDigitCh] at this

/-- Render `m` centi-units as the fixed-point decimal `int.fraction2`. -/
def fmt2u (m : Nat) : List Char :=
  natChars (m / 100) ++ '.' :: [Nat.digitChar (m % 100 / 10), Nat.digitChar (m % 10)]

/-- Python `f-string` formatting `:.2f` applied to a value already rounded to
`c` centi-units (possibly negative). -/
def fmt2 (c : ℤ) : List Char := (if c < 0 then ['-'] else []) ++ fmt2u c.natAbs

/-- Render `d` deci-units as the fixed-point decimal `int.fraction1`
(Python `:.1f` on a value that is exact in deci-units). -/
def fmt1 (d : Nat) : List Char :=
  natChars (d / 10) ++ '.' :: [Nat.digitChar (d % 10)]

/-- Parse an unsigned two-decimal fixed-point numeral back to centi-units. -/
def parse2u (s : List Char) : Option Nat :=
  match splitDot s with
  | (ip, some [f1, f2]) =>
    if isDigitCh f1 && isDigitCh f2 then
      (parseNatChars ip).map (fun i => i * 100 + charVal f1 * 10 + charVal f2)
    else none
  | _ => none

/-- Parse a signed two-decimal fixed-point numeral back to centi-units. -/
def parse2 : List Char → Option ℤ
  | [] => none
  | c :: rest =>
    if c = '-' then (parse2u rest).map (fun n : ℕ => -(n : ℤ))
    else (parse2u (c :: rest)).map (fun n : ℕ => (n : ℤ))

/-- Parse an unsigned one-decimal fixed-point numeral back to deci-units. -/
def parse1u (s : List Char) : Option Nat :=
  match splitDot s with
  | (ip, some [f1]) =>
    if isDigitCh f1 then (parseNatChars ip).map (fun i => i * 10 + charVal f1)
    else none
  | _ => none

theorem parse2u_fmt2u (m : Nat) : parse2u (fmt2u m) = some m := by
  unfold parse2u fmt2u
  rw [splitDot_append _ _ (natChars_no_dot _)]
  have h1 : m % 100 / 10 < 10 := by omega
  have h2 : m % 10 < 10 := by omega
  have e1 : m % 100 = 10 * (m % 100 / 10) + m % 100 % 10 := (Nat.div_add_mod _ 10).symm
  have e2 : m % 100 % 10 = m % 10 := Nat.mod_mod_of_dvd m (by norm_num)
  simp only [digitChar_isDigit _ h1, digitChar_isDigit _ h2, Bool.and_self, if_true,
    parseNatChars_natChars, Option.map_some', charVal_digitChar _ h1,
    charVal_digitChar _ h2, Option.some.injEq]
  omega

theorem fmt2u_head (m : Nat) :
    ∃ h t, fmt2u m = h :: t ∧ isDigitCh h = true := by
  obtain ⟨h, t, hht⟩ := List.exists_cons_of_ne_nil (natChars_ne_nil (m / 100))
  refine ⟨h, t ++ '.' :: [Nat.digitChar (m % 100 / 10), Nat.digitChar (m % 10)], ?_, ?_⟩
  · unfold fmt2u
    rw [hht]
    rfl
  · exact natChars_all_digit _ h (hht ▸ List.mem_cons_self h t)

theorem parse2_fmt2 (c : ℤ) : parse2 (fmt2 c) = some c := by
  by_cases hc : c < 0
  · show parse2 ((if c < 0 then ['-'] else []) ++ fmt2u c.natAbs) = some c
    rw [if_pos hc]
    show parse2 ('-' :: fmt2u c.natAbs) = some c
    rw [show parse2 ('-' :: fmt2u c.natAbs)
        = (parse2u (fmt2u c.natAbs)).map (fun n : ℕ => -(n : ℤ)) from rfl,
      parse2u_fmt2u]
    simp only [Option.map_some', Option.some.injEq]
    omega
  · show parse2 ((if c < 0 then ['-'] else []) ++ fmt2u c.natAbs) = some c
    rw [if_neg hc, List.nil_append]
    obtain ⟨h, t, hht, hdig⟩ := fmt2u_head c.natAbs
    rw [hht]
    have hne : ¬(h = '-') := by
      intro he
      rw [he] at hdig
      simp [isDigitCh] at hdig
    rw [show parse2 (h :: t)
        = if h = '-' then (parse2u t).map (fun n : ℕ => -(n : ℤ))
          else (parse2u (h :: t)).map (fun n : ℕ => (n : ℤ)) from rfl]
    rw [if_neg hne, ← hht, parse2u_fmt2u]
    simp only [Option.map_some', Option.some.injEq]
    omega

theorem parse1u_fmt1 (d : Nat) : parse1u (fmt1 d) = some d := by
  unfold parse1u fmt1
  rw [splitDot_append _ _ (natChars_no_dot _)]
  have h1 : d % 10 < 10 := by omega
  simp only [digitChar_isDigit _ h1, if_true, parseNatChars_natChars,
    Option.map_some', Option.some.injEq]
  rw [charVal_digitChar _ h1]
  omega

/- ===== Log line and publish payload (z+o_scaniQ.py, lines 81-94) ===== -/

/-- The `pattern={bool}` log field; Python renders `True` / `False`. -/
def patFieldChars (b : Bool) : List Char :=
  if b then "pattern=True".data else "pattern=False".data

/-- The `lat={STATION_LAT}` log field (Python `str(50.4501)`). -/
def latFieldChars : List Char := "lat=50.4501".data

/-- The `lon={STATION_LON}` log field (Python `str(30.5234)`). -/
def lonFieldChars : List Char := "lon=30.5234".data

/-- The `{freq/1e6:.1f} MHz` log field; exact when `freq` is a multiple of
100 kHz (true of every Frequency Plan entry). -/
def mhzField (freq : Nat) : List Char := fmt1 (freq / 100000) ++ [' ', 'M', 'H', 'z']

/-- The `{power_db:.2f} dB` log field, on the value rounded to `c` centi-dB. -/
def dbField (c : ℤ) : List Char := fmt2 c ++ [' ', 'd', 'B']

/-- Remove a known suffix from a character list, if present. -/
def stripSuffix (suf s : List Char) : Option (List Char) :=
  if s.drop (s.length - suf.length) = suf then some (s.take (s.length - suf.length))
  else none

theorem stripSuffix_append (suf a : List Char) : stripSuffix suf (a ++ suf) = some a := by
  unfold stripSuffix
  have hl : (a ++ suf).length - suf.length = a.length := by simp
  rw [hl, List.drop_left, if_pos rfl, List.take_left]

/-- Parse a `X.Y MHz` field back to an integer frequency in Hz. -/
def parseMHzField (s : List Char) : Option Nat :=
  (stripSuffix [' ', 'M', 'H', 'z'] s).bind
    (fun body => (parse1u body).map (fun d => d * 100000))

/-- Parse a `X.YZ dB` field back to centi-dB. -/
def parseDbField (s : List Char) : Option ℤ :=
  (stripSuffix [' ', 'd', 'B'] s).bind parse2

/-- Parse a `pattern={bool}` field back to the flag. -/
def parsePatField (s : List Char) : Option Bool :=
  if s = "pattern=True".data then some true
  else if s = "pattern=False".data then some false
  else none

/-- The six ` | `-separated fields of one `cav.log` line (source line 93):
timestamp, MHz, dB, pattern flag, station latitude, station longitude. -/
def logFields (now : String) (freq : Nat) (c : ℤ) (pat : Bool) : List (List Char) :=
  [now.data, mhzField freq, dbField c, patFieldChars pat, latFieldChars, lonFieldChars]

/-- The full `cav.log` line, fields joined by ` | ` plus a newline. -/
def logLineChars (now : String) (freq : Nat) (c : ℤ) (pat : Bool) : List Char :=
  List.intercalate [' ', '|', ' '] (logFields now freq c pat) ++ ['\n']

/-- Recover frequency (Hz), centi-dB power and pattern flag from the log
fields. -/
def parseLogFields : List (List Char) → Option (Nat × ℤ × Bool)
  | [_, f1, f2, f3, _, _] =>
    match parseMHzField f1, parseDbField f2, parsePatField f3 with
    | some fr, some db, some pat => some (fr, db, pat)
    | _, _, _ => none
  | _ => none

/-- JSON values appearing in the publish payload. -/
inductive JVal where
  | jstr (s : String)
  | jint (n : Nat)
  | jnum (q : ℚ)
  | jbool (b : Bool)
  deriving DecidableEq

/-- `STATION_LAT = 50.4501`. -/
def STATION_LAT : ℚ := 50.4501

/-- `STATION_LON = 30.5234`. -/
def STATION_LON : ℚ := 30.5234

/-- `round(power_db, 2)` expressed in centi-dB units: the integer nearest to
`100 * power_db`. -/
noncomputable def centi (p : ℝ) : ℤ := round ((100 : ℝ) * p)

/-- The published JSON object (source lines 81-89), fields in source order;
`rssi` carries `round(power_db, 2)`. -/
noncomputable def payloadOf (freq : Nat) (power : ℝ) (now : String) (pat : Bool) :
    List (String × JVal) :=
  [("type", JVal.jstr "signal_detected"), ("freq", JVal.jint freq),
   ("rssi", JVal.jnum ((centi power : ℚ) / 100)), ("timestamp", JVal.jstr now),
   ("pattern", JVal.jbool pat), ("lat", JVal.jnum STATION_LAT),
   ("lon", JVal.jnum STATION_LON)]

/-- Look up a key in a JSON object (first match). -/
def jLookup (k : String) (l : List (String × JVal)) : Option JVal :=
  (l.find? (fun p => p.1 == k)).map (fun p => p.2)

/-- Recover frequency (Hz), centi-dB power and pattern flag from the publish
payload. -/
def parsePayload (p : List (String × JVal)) : Option (Nat × ℤ × Bool) :=
  match jLookup "freq" p, jLookup "rssi" p, jLookup "pattern" p with
  | some (JVal.jint f), some (JVal.jnum q), some (JVal.jbool b) =>
    if (q * 100).den = 1 then some (f, (q * 100).num, b) else none
  | _, _, _ => none

theorem parseMHz_mhzField (freq : Nat) (hf : 100000 ∣ freq) :
    parseMHzField (mhzField freq) = some freq := by
  unfold parseMHzField mhzField
  rw [stripSuffix_append]
  show (parse1u (fmt1 (freq / 100000))).map (fun d => d * 100000) = some freq
  rw [parse1u_fmt1]
  simp only [Option.map_some', Option.some.injEq]
  exact Nat.div_mul_cancel hf

theorem parseDb_dbField (c : ℤ) : parseDbField (dbField c) = some c := by
  unfold parseDbField dbField
  rw [stripSuffix_append]
  exact parse2_fmt2 c

theorem parsePat_patField (b : Bool) : parsePatField (patFieldChars b) = some b := by
  cases b <;> rfl

theorem parseLogFields_logFields (now : String) (freq : Nat) (c : ℤ) (pat : Bool)
    (hf : 100000 ∣ freq) :
    parseLogFields (logFields now freq c pat) = some (freq, c, pat) := by
  unfold parseLogFields logFields
  dsimp only
  rw [parseMHz_mhzField freq hf, parseDb_dbField, parsePat_patField]

theorem parsePayload_payloadOf (freq : Nat) (power : ℝ) (now : String) (pat : Bool) :
    parsePayload (payloadOf freq power now pat) = some (freq, centi power, pat) := by
  have h1 : jLookup "freq" (payloadOf freq power now pat) = some (JVal.jint freq) := rfl
  have h2 : jLookup "rssi" (payloadOf freq power now pat)
      = some (JVal.jnum ((centi power : ℚ) / 100)) := rfl
  have h3 : jLookup "pattern" (payloadOf freq power now pat)
      = some (JVal.jbool pat) := rfl
  unfold parsePayload
  rw [h1, h2, h3]
  have hq : ((centi power : ℚ) / 100) * 100 = ((centi power : ℤ) : ℚ) := by
    field_simp
  dsimp only
  rw [hq, Rat.den_intCast, if_pos rfl, Rat.num_intCast]

/- ===== Detection Record (spec section 3) ===== -/

/-- One detection, as created per triggered capture. -/
structure DetectionRecord where
  freq : Nat
  power : ℝ
  pattern : Bool
  now : String

/-- The log-line serialization of a record (field level). -/
noncomputable def recordLogFields (r : DetectionRecord) : List (List Char) :=
  logFields r.now r.freq (centi r.power) r.pattern

/-- The publish serialization of a record. -/
noncomputable def recordPayload (r : DetectionRecord) : List (String × JVal) :=
  payloadOf r.freq r.power r.now r.pattern

theorem freq_div_100000 : ∀ f ∈ FREQ_LIST, 100000 ∣ f := by decide

/-- Claim C8: serializing a Detection Record to the log line and to the
publish message, then parsing either back, reconstructs the same frequency,
the same power to 2 decimal places (centi-dB), and the same pattern flag;
records carry frequencies of the Frequency Plan, all multiples of 100 kHz,
which is what the one-decimal MHz log field needs to be lossless. -/
theorem C8_detection_record_roundtrip (r : DetectionRecord)
    (hf : r.freq ∈ FREQ_LIST) :
    parseLogFields (recordLogFields r) = some (r.freq, centi r.power, r.pattern)
    ∧ parsePayload (recordPayload r) = some (r.freq, centi r.power, r.pattern) :=
  ⟨parseLogFields_logFields _ _ _ _ (freq_div_100000 _ hf),
   parsePayload_payloadOf _ _ _ _⟩

/-- Witness for C8 at a concrete record. -/
theorem C8_detection_record_roundtrip_witness :
    870000000 ∈ FREQ_LIST
    ∧ parseLogFields (recordLogFields ⟨870000000, 2, true, "20240101_000000"⟩)
        = some (870000000, centi 2, true)
    ∧ parsePayload (recordPayload ⟨870000000, 2, true, "20240101_000000"⟩)
        = some (870000000, centi 2, true) := by
  have hmem : 870000000 ∈ FREQ_LIST := by decide
  obtain ⟨ha, hb⟩ :=
    C8_detection_record_roundtrip ⟨870000000, 2, true, "20240101_000000"⟩ hmem
  exact ⟨hmem, ha, hb⟩

/- ===== Scan loop (z+o_scaniQ.py, lines 50-99) =====

The per-frequency behaviour of the radio is an oracle `FreqBehavior`: the
probe read result (`sr.ret` and the scratch buffer contents), the formatted
UTC timestamp `datetime.utcnow().strftime("%Y%m%d_%H%M%S")` observed at
trigger time, and the schedule of capture-drain reads (each given as its
valid prefix `buff[:sr.ret]`, empty for a non-positive count).  The loop body
is embedded as a trace of externally visible events; an uncaught numpy
exception (`crash`) or an infinite retry loop (`hang`) aborts the sweep, so
those paths return `Except.error` and the remaining frequencies are never
visited. -/

/-- Complex samples of the scan model. -/
abbrev Cx := ℝ × ℝ

/-- Radio behaviour at one frequency visit. -/
structure FreqBehavior where
  probeRet : Int
  probeBuff : List Cx
  now : String
  captureReads : List (List Cx)

/-- Externally visible events of one sweep. -/
inductive Event where
  | tune (freq : Nat)
  | activate
  | probeRead
  | save (fname : List Char)
  | publish (payload : List (String × JVal))
  | logAppend (line : List Char)
  | deactivate
  | complete
  | crash
  | hang
  deriving DecidableEq

/-- `f"iq_{int(freq/1e6)}MHz_{now}.cu8"` (source line 63). -/
def fnameOf (freq : Nat) (now : String) : List Char :=
  "iq_".data ++ natChars (freq / 1000000) ++ "MHz_".data ++ now.data ++ ".cu8".data

/-- `np.zeros(samples_total)`, the freshly allocated Capture Buffer. -/
def zeroBuf : List Cx := List.replicate samplesTotal ((0 : ℝ), (0 : ℝ))

/-- The capture-triggered path (source lines 62-94): drain the stream into
the Capture Buffer, save the file, demodulate the first 4096 samples,
publish the payload and append the log line. -/
noncomputable def capturePath (b : FreqBehavior) (freq : Nat) (power : ℝ) :
    Except (List Event) (List Event) :=
  match captureFillLoop samplesTotal zeroBuf 0 b.captureReads with
  | FillResult.filled recorded =>
    Except.ok
      [Event.save (fnameOf freq b.now),
       Event.publish (payloadOf freq power b.now (detect_pattern (recorded.take 4096))),
       Event.logAppend
         (logLineChars b.now freq (centi power) (detect_pattern (recorded.take 4096)))]
  | FillResult.broadcastError _ => Except.error [Event.crash]
  | FillResult.starved _ _ => Except.error [Event.hang]

/-- One iteration of the `for freq in FREQ_LIST` body (source lines 50-97):
tune, activate, one probe read, conditional capture, deactivate. -/
noncomputable def processFreq (b : FreqBehavior) (freq : Nat) :
    Except (List Event) (List Event) :=
  if 0 < b.probeRet then
    if THRESHOLD_DB < powerDb b.probeBuff b.probeRet.toNat then
      match capturePath b freq (powerDb b.probeBuff b.probeRet.toNat) with
      | Except.ok evts =>
        Except.ok ([Event.tune freq, Event.activate, Event.probeRead] ++ evts
          ++ [Event.deactivate])
      | Except.error evts =>
        Except.error ([Event.tune freq, Event.activate, Event.probeRead] ++ evts)
    else Except.ok [Event.tune freq, Event.activate, Event.probeRead, Event.deactivate]
  else Except.ok [Event.tune freq, Event.activate, Event.probeRead, Event.deactivate]

/-- The sweep over the remaining plan, with `i` the index of the next
frequency into the oracle; emits `complete` after the last frequency
(source line 99, `log("Scan complete.")`). -/
noncomputable def scanFrom (port : Nat → FreqBehavior) : Nat → List Nat → List Event
  | _, [] => [Event.complete]
  | i, f :: fs =>
    match processFreq (port i) f with
    | Except.ok e => e ++ scanFrom port (i + 1) fs
    | Except.error e => e

/-- The full trace of one call to `scan_loop`. -/
noncomputable def scanTrace (port : Nat → FreqBehavior) (plan : List Nat) : List Event :=
  scanFrom port 0 plan

/-- Event classifiers used to count reads, captures, publishes and appends. -/
def isProbeReadE : Event → Bool
  | Event.probeRead => true
  | Event.tune _ => false
  | Event.activate => false
  | Event.save _ => false
  | Event.publish _ => false
  | Event.logAppend _ => false
  | Event.deactivate => false
  | Event.complete => false
  | Event.crash => false
  | Event.hang => false

def isSaveE : Event → Bool
  | Event.save _ => true
  | Event.tune _ => false
  | Event.activate => false
  | Event.probeRead => false
  | Event.publish _ => false
  | Event.logAppend _ => false
  | Event.deactivate => false
  | Event.complete => false
  | Event.crash => false
  | Event.hang => false

def isPublishE : Event → Bool
  | Event.publish _ => true
  | Event.tune _ => false
  | Event.activate => false
  | Event.probeRead => false
  | Event.save _ => false
  | Event.logAppend _ => false
  | Event.deactivate => false
  | Event.complete => false
  | Event.crash => false
  | Event.hang => false

def isLogAppendE : Event → Bool
  | Event.logAppend _ => true
  | Event.tune _ => false
  | Event.activate => false
  | Event.probeRead => false
  | Event.save _ => false
  | Event.publish _ => false
  | Event.deactivate => false
  | Event.complete => false
  | Event.crash => false
  | Event.hang => false

/-- The sequence of frequencies tuned along a trace. -/
def tuneFreqs (trace : List Event) : List Nat :=
  trace.filterMap (fun e =>
    match e with
    | Event.tune f => some f
    | _ => none)

/-- The trace of a sweep in which no frequency triggers a capture. -/
def quietTrace (plan : List Nat) : List Event :=
  (plan.flatMap (fun f =>
    [Event.tune f, Event.activate, Event.probeRead, Event.deactivate]))
    ++ [Event.complete]

/-- An all-quiet port: every probe read returns count 0. -/
def zeroPort : Nat → FreqBehavior := fun _ => ⟨0, [], "", []⟩

theorem processFreq_noTrigger (b : FreqBehavior) (f : Nat)
    (h : ¬(0 < b.probeRet ∧ THRESHOLD_DB < powerDb b.probeBuff b.probeRet.toNat)) :
    processFreq b f = Except.ok
      [Event.tune f, Event.activate, Event.probeRead, Event.deactivate] := by
  unfold processFreq
  by_cases h1 : 0 < b.probeRet
  · rw [if_pos h1, if_neg (fun h2 => h ⟨h1, h2⟩)]
  · rw [if_neg h1]

theorem processFreq_trigger (b : FreqBehavior) (f : Nat) (rec : List Cx)
    (h1 : 0 < b.probeRet)
    (h2 : THRESHOLD_DB < powerDb b.probeBuff b.probeRet.toNat)
    (hfill : captureFillLoop samplesTotal zeroBuf 0 b.captureReads
      = FillResult.filled rec) :
    processFreq b f = Except.ok
      [Event.tune f, Event.activate, Event.probeRead,
       Event.save (fnameOf f b.now),
       Event.publish (payloadOf f (powerDb b.probeBuff b.probeRet.toNat) b.now
         (detect_pattern (rec.take 4096))),
       Event.logAppend (logLineChars b.now f
         (centi (powerDb b.probeBuff b.probeRet.toNat))
         (detect_pattern (rec.take 4096))),
       Event.deactivate] := by
  unfold processFreq
  rw [if_pos h1, if_pos h2]
  unfold capturePath
  rw [hfill]
  rfl

theorem scanFrom_noTrigger (port : Nat → FreqBehavior) (plan : List Nat) :
    ∀ i, (∀ j, j < plan.length →
        ¬(0 < (port (i + j)).probeRet
          ∧ THRESHOLD_DB < powerDb (port (i + j)).probeBuff (port (i + j)).probeRet.toNat)) →
      scanFrom port i plan = quietTrace plan := by
  induction plan with
  | nil => intro i _; rfl
  | cons f fs ih =>
    intro i h
    have h0 := h 0 (by simp)
    rw [Nat.add_zero] at h0
    show (match processFreq (port i) f with
      | Except.ok e => e ++ scanFrom port (i + 1) fs
      | Except.error e => e) = quietTrace (f :: fs)
    rw [processFreq_noTrigger _ f h0]
    dsimp only
    rw [ih (i + 1) (fun j hj => by
      rw [show i + 1 + j = i + (j + 1) from by omega]
      exact h (j + 1) (by simpa using Nat.succ_lt_succ hj))]
    simp [quietTrace, List.flatMap_cons, List.append_assoc]

theorem quietTrace_countP_probe (plan : List Nat) :
    (quietTrace plan).countP isProbeReadE = plan.length := by
  induction plan with
  | nil => rfl
  | cons f fs ih =>
    unfold quietTrace at ih ⊢
    rw [List.flatMap_cons, List.append_assoc, List.countP_append, ih]
    have hseg : List.countP isProbeReadE
        [Event.tune f, Event.activate, Event.probeRead, Event.deactivate] = 1 := rfl
    rw [hseg, List.length_cons]
    omega

theorem quietTrace_countP_save (plan : List Nat) :
    (quietTrace plan).countP isSaveE = 0 := by
  induction plan with
  | nil => rfl
  | cons f fs ih =>
    unfold quietTrace at ih ⊢
    rw [List.flatMap_cons, List.append_assoc, List.countP_append, ih]
    have hseg : List.countP isSaveE
        [Event.tune f, Event.activate, Event.probeRead, Event.deactivate] = 0 := rfl
    rw [hseg]

theorem quietTrace_countP_publish (plan : List Nat) :
    (quietTrace plan).countP isPublishE = 0 := by
  induction plan with
  | nil => rfl
  | cons f fs ih =>
    unfold quietTrace at ih ⊢
    rw [List.flatMap_cons, List.append_assoc, List.countP_append, ih]
    have hseg : List.countP isPublishE
        [Event.tune f, Event.activate, Event.probeRead, Event.deactivate] = 0 := rfl
    rw [hseg]

theorem quietTrace_countP_logAppend (plan : List Nat) :
    (quietTrace plan).countP isLogAppendE = 0 := by
  induction plan with
  | nil => rfl
  | cons f fs ih =>
    unfold quietTrace at ih ⊢
    rw [List.flatMap_cons, List.append_assoc, List.countP_append, ih]
    have hseg : List.countP isLogAppendE
        [Event.tune f, Event.activate, Event.probeRead, Event.deactivate] = 0 := rfl
    rw [hseg]

/-- Claim C5: over a Frequency Plan of length N, if no probe triggers (power
at or below `THRESHOLD_DB`, or a non-positive read count), one full sweep is
exactly the quiet trace: N probe reads, zero captures (saves), zero
publishes, zero log appends, and a deactivate after each frequency. -/
theorem C5_quiet_sweep (plan : List Nat) (port : Nat → FreqBehavior)
    (h : ∀ j, j < plan.length →
        ¬(0 < (port j).probeRet
          ∧ THRESHOLD_DB < powerDb (port j).probeBuff (port j).probeRet.toNat)) :
    scanTrace port plan = quietTrace plan
    ∧ (scanTrace port plan).countP isProbeReadE = plan.length
    ∧ (scanTrace port plan).countP isSaveE = 0
    ∧ (scanTrace port plan).countP isPublishE = 0
    ∧ (scanTrace port plan).countP isLogAppendE = 0 := by
  have htr : scanTrace port plan = quietTrace plan := by
    refine scanFrom_noTrigger port plan 0 (fun j hj => ?_)
    rw [Nat.zero_add]
    exact h j hj
  refine ⟨htr, ?_, ?_, ?_, ?_⟩ <;> rw [htr]
  · exact quietTrace_countP_probe plan
  · exact quietTrace_countP_save plan
  · exact quietTrace_countP_publish plan
  · exact quietTrace_countP_logAppend plan

/-- Witness for C5 at a concrete two-frequency plan and an all-quiet port. -/
theorem C5_quiet_sweep_witness :
    scanTrace zeroPort [870000000, 873000000] = quietTrace [870000000, 873000000]
    ∧ (scanTrace zeroPort [870000000, 873000000]).countP isProbeReadE = 2 := by
  obtain ⟨h1, h2, _⟩ := C5_quiet_sweep [870000000, 873000000] zeroPort
    (fun j _ hcon => absurd hcon.1 (by simp [zeroPort]))
  exact ⟨h1, h2⟩

/-- Counterexample to claim C3: the background-task variant does not loop
back to frequency index 0 — with the source Frequency Plan and an all-quiet
port, the sweep is a single pass in which the first frequency is tuned
exactly once and the trace ends at the scan-complete event. -/
theorem C3_single_pass_counterexample :
    scanTrace zeroPort FREQ_LIST = quietTrace FREQ_LIST
    ∧ (quietTrace FREQ_LIST).count (Event.tune 870000000) = 1
    ∧ (quietTrace FREQ_LIST).getLast? = some Event.complete := by
  refine ⟨?_, by decide, by decide⟩
  show scanFrom zeroPort 0 FREQ_LIST = quietTrace FREQ_LIST
  exact scanFrom_noTrigger zeroPort FREQ_LIST 0
    (fun j _ hcon => absurd hcon.1 (by simp [zeroPort]))

/-- Is an `Except` value a success? -/
def exceptOk {ε α : Type} : Except ε α → Bool
  | Except.ok _ => true
  | Except.error _ => false

theorem capturePath_ok_tuneFreqs (b : FreqBehavior) (f : Nat) (power : ℝ)
    (evts : List Event) (h : capturePath b f power = Except.ok evts) :
    tuneFreqs evts = [] := by
  unfold capturePath at h
  cases hfl : captureFillLoop samplesTotal zeroBuf 0 b.captureReads with
  | filled rec =>
    rw [hfl] at h
    simp at h
    rw [← h]
    rfl
  | starved buf idx =>
    rw [hfl] at h
    simp at h
  | broadcastError idx =>
    rw [hfl] at h
    simp at h

theorem processFreq_ok_tuneFreqs (b : FreqBehavior) (f : Nat) (e : List Event)
    (he : processFreq b f = Except.ok e) : tuneFreqs e = [f] := by
  unfold processFreq at he
  split_ifs at he with h1 h2
  · cases hc : capturePath b f (powerDb b.probeBuff b.probeRet.toNat) with
    | ok evts =>
      rw [hc] at he
      have he2 : Except.ok (ε := List Event)
          ([Event.tune f, Event.activate, Event.probeRead] ++ evts
            ++ [Event.deactivate]) = Except.ok e := he
      injection he2 with he3
      have hte : tuneFreqs evts = [] := capturePath_ok_tuneFreqs b f _ evts hc
      rw [← he3]
      unfold tuneFreqs at hte ⊢
      rw [List.filterMap_append, List.filterMap_append, hte]
      rfl
    | error evts =>
      rw [hc] at he
      have he2 : Except.error (α := List Event)
          ([Event.tune f, Event.activate, Event.probeRead] ++ evts)
        = Except.ok e := he
      exact Except.noConfusion he2
  · simp at he
    rw [← he]
    rfl
  · simp at he
    rw [← he]
    rfl

theorem scanFrom_single_pass (port : Nat → FreqBehavior)
    (h : ∀ i f, exceptOk (processFreq (port i) f) = true) (plan : List Nat) :
    ∀ i, tuneFreqs (scanFrom port i plan) = plan
      ∧ ∃ pre, scanFrom port i plan = pre ++ [Event.complete] := by
  induction plan with
  | nil => exact fun i => ⟨rfl, [], rfl⟩
  | cons f fs ih =>
    intro i
    obtain ⟨e, he⟩ : ∃ e, processFreq (port i) f = Except.ok e := by
      cases hp : processFreq (port i) f with
      | ok e => exact ⟨e, rfl⟩
      | error err =>
        have hh := h i f
        rw [hp] at hh
        exact absurd hh (by simp [exceptOk])
    have hsf : scanFrom port i (f :: fs) = e ++ scanFrom port (i + 1) fs := by
      show (match processFreq (port i) f with
        | Except.ok e => e ++ scanFrom port (i + 1) fs
        | Except.error e => e) = e ++ scanFrom port (i + 1) fs
      rw [he]
    obtain ⟨ih1, pre, ih2⟩ := ih (i + 1)
    constructor
    · rw [hsf]
      have hfe := processFreq_ok_tuneFreqs (port i) f e he
      unfold tuneFreqs at hfe ih1 ⊢
      rw [List.filterMap_append, hfe, ih1]
      rfl
    · exact ⟨e ++ pre, by rw [hsf, ih2, List.append_assoc]⟩

/-- Claim C3, amended: for every plan and every port on which no frequency
iteration aborts, one call to `scan_loop` is a single in-order pass — the
tuned frequencies are exactly the plan, once each — and it terminates with
the scan-complete event; the sweep is not restarted. -/
theorem C3_single_pass_then_complete (plan : List Nat) (port : Nat → FreqBehavior)
    (h : ∀ i f, exceptOk (processFreq (port i) f) = true) :
    tuneFreqs (scanTrace port plan) = plan
    ∧ (scanTrace port plan).getLast? = some Event.complete := by
  obtain ⟨h1, pre, h2⟩ := scanFrom_single_pass port h plan 0
  refine ⟨h1, ?_⟩
  show (scanFrom port 0 plan).getLast? = some Event.complete
  rw [h2]
  exact List.getLast?_concat pre

/-- Witness for the amended C3 on the source plan and an all-quiet port. -/
theorem C3_single_pass_then_complete_witness :
    tuneFreqs (scanTrace zeroPort FREQ_LIST) = FREQ_LIST
    ∧ (scanTrace zeroPort FREQ_LIST).getLast? = some Event.complete :=
  C3_single_pass_then_complete FREQ_LIST zeroPort (fun _ _ => rfl)

theorem captureFillLoop_skip {α : Type} (cap idx : Nat) (recorded : List α)
    (rest : List (List α)) (hidx : idx < cap) :
    captureFillLoop cap recorded idx (([] : List α) :: rest)
      = captureFillLoop cap recorded idx rest := by
  show (if cap ≤ idx then FillResult.filled recorded
    else if ([] : List α).isEmpty then captureFillLoop cap recorded idx rest
    else if idx + ([] : List α).length ≤ cap then
      captureFillLoop cap
        (recorded.take idx ++ ([] : List α) ++ recorded.drop (idx + ([] : List α).length))
        (idx + ([] : List α).length) rest
    else FillResult.broadcastError idx)
    = captureFillLoop cap recorded idx rest
  rw [if_neg (by omega), if_pos List.isEmpty_nil]

theorem captureFillLoop_starve {α : Type} (cap idx : Nat) (recorded : List α)
    (k : Nat) (hidx : idx < cap) :
    captureFillLoop cap recorded idx (List.replicate k ([] : List α))
      = FillResult.starved recorded idx := by
  induction k with
  | zero =>
    show (if cap ≤ idx then FillResult.filled recorded
      else FillResult.starved recorded idx) = FillResult.starved recorded idx
    rw [if_neg (by omega)]
  | succ n ihn =>
    rw [List.replicate_succ, captureFillLoop_skip cap idx recorded _ hidx]
    exact ihn

/-- Claim C7: a non-positive read count is handled differently by phase.
During probing it skips the frequency (no capture, publish or log-append
events; the sweep continues with the next frequency); during a capture drain
it is retried with the fill cursor and buffer contents unchanged, without
bound — any number of consecutive stalled reads leaves the loop in the same
state, still waiting. -/
theorem C7_nonpositive_read_handling :
    (∀ (port : Nat → FreqBehavior) (i f : Nat) (fs : List Nat),
        (port i).probeRet ≤ 0 →
        processFreq (port i) f
            = Except.ok [Event.tune f, Event.activate, Event.probeRead, Event.deactivate]
          ∧ scanFrom port i (f :: fs)
            = [Event.tune f, Event.activate, Event.probeRead, Event.deactivate]
              ++ scanFrom port (i + 1) fs)
    ∧ (∀ (cap idx : Nat) (recorded : List Cx) (rest : List (List Cx)),
        idx < cap →
        captureFillLoop cap recorded idx (([] : List Cx) :: rest)
          = captureFillLoop cap recorded idx rest)
    ∧ (∀ (cap idx : Nat) (recorded : List Cx) (k : Nat),
        idx < cap →
        captureFillLoop cap recorded idx (List.replicate k ([] : List Cx))
          = FillResult.starved recorded idx) := by
  refine ⟨?_, ?_, ?_⟩
  · intro port i f fs hret
    have hno : ¬(0 < (port i).probeRet
        ∧ THRESHOLD_DB < powerDb (port i).probeBuff (port i).probeRet.toNat) :=
      fun hcon => absurd hcon.1 (by omega)
    have hp := processFreq_noTrigger (port i) f hno
    refine ⟨hp, ?_⟩
    show (match processFreq (port i) f with
      | Except.ok e => e ++ scanFrom port (i + 1) fs
      | Except.error e => e)
      = [Event.tune f, Event.activate, Event.probeRead, Event.deactivate]
        ++ scanFrom port (i + 1) fs
    rw [hp]
  · exact fun cap idx recorded rest hidx =>
      captureFillLoop_skip cap idx recorded rest hidx
  · exact fun cap idx recorded k hidx =>
      captureFillLoop_starve cap idx recorded k hidx

/-- Witness for C7 at concrete inputs: a timed-out probe and a stalled
capture read. -/
theorem C7_nonpositive_read_handling_witness :
    (zeroPort 0).probeRet ≤ 0
    ∧ processFreq (zeroPort 0) 870000000
        = Except.ok [Event.tune 870000000, Event.activate, Event.probeRead,
            Event.deactivate]
    ∧ captureFillLoop 2 [((0 : ℝ), (0 : ℝ)), ((0 : ℝ), (0 : ℝ))] 1 [([] : List Cx)]
        = captureFillLoop 2 [((0 : ℝ), (0 : ℝ)), ((0 : ℝ), (0 : ℝ))] 1 [] := by
  refine ⟨by decide, ?_, ?_⟩
  · exact (C7_nonpositive_read_handling.1 zeroPort 0 870000000 [] (by decide)).1
  · exact C7_nonpositive_read_handling.2.1 2 1 _ [] (by decide)

theorem captureFillLoop_exact {α : Type} (cap : Nat) (recorded c : List α)
    (rest : List (List α)) (hcap : 0 < cap) (hc : c.length = cap)
    (hrec : recorded.length = cap) :
    captureFillLoop cap recorded 0 (c :: rest) = FillResult.filled c := by
  have hne : c.isEmpty = false := by
    cases c
    · simp at hc
      omega
    · rfl
  unfold captureFillLoop
  split_ifs with h1 h2 h3
  · exact absurd h1 (by omega)
  · rw [h2] at hne
    exact absurd hne (by simp)
  · have heq : List.take 0 recorded ++ c ++ List.drop (0 + c.length) recorded = c := by
      rw [List.take_zero, List.nil_append, Nat.zero_add, hc, ← hrec, List.drop_length,
        List.append_nil]
    rw [heq, Nat.zero_add, hc]
    cases rest with
    | nil =>
      show (if cap ≤ cap then FillResult.filled c else FillResult.starved c cap)
        = FillResult.filled c
      rw [if_pos (le_refl cap)]
    | cons r rs =>
      show (if cap ≤ cap then FillResult.filled c
        else if r.isEmpty then captureFillLoop cap c cap rs
        else if cap + r.length ≤ cap then
          captureFillLoop cap (c.take cap ++ r ++ c.drop (cap + r.length))
            (cap + r.length) rs
        else FillResult.broadcastError cap) = FillResult.filled c
      rw [if_pos (le_refl cap)]
  · exact absurd (by omega : 0 + c.length ≤ cap) h3

/-- One per-frequency trace of the capture-triggered path, in source order:
tune, activate, probe read, file save, publish, log append, deactivate. -/
noncomputable def capturedEvents (f : Nat) (power : ℝ) (now : String) (pat : Bool) :
    List Event :=
  [Event.tune f, Event.activate, Event.probeRead, Event.save (fnameOf f now),
   Event.publish (payloadOf f power now pat),
   Event.logAppend (logLineChars now f (centi power) pat), Event.deactivate]

/-- Claim C6: a triggered capture produces exactly one publish event, whose
JSON payload has the fields, in order: `type = "signal_detected"`, `freq`
(integer Hz), `rssi` (the power score rounded to 2 decimals), `timestamp`
(the formatted UTC capture time the clock produced at trigger), `pattern`
(the demodulator flag on the first 4096 captured samples), and the station
`lat`/`lon`. -/
theorem C6_publish_message (b : FreqBehavior) (f : Nat) (rec : List Cx)
    (h1 : 0 < b.probeRet)
    (h2 : THRESHOLD_DB < powerDb b.probeBuff b.probeRet.toNat)
    (hfill : captureFillLoop samplesTotal zeroBuf 0 b.captureReads
      = FillResult.filled rec) :
    processFreq b f = Except.ok
      (capturedEvents f (powerDb b.probeBuff b.probeRet.toNat) b.now
        (detect_pattern (rec.take 4096)))
    ∧ payloadOf f (powerDb b.probeBuff b.probeRet.toNat) b.now
        (detect_pattern (rec.take 4096))
      = [("type", JVal.jstr "signal_detected"),
         ("freq", JVal.jint f),
         ("rssi", JVal.jnum ((centi (powerDb b.probeBuff b.probeRet.toNat) : ℚ) / 100)),
         ("timestamp", JVal.jstr b.now),
         ("pattern", JVal.jbool (detect_pattern (rec.take 4096))),
         ("lat", JVal.jnum STATION_LAT),
         ("lon", JVal.jnum STATION_LON)]
    ∧ (capturedEvents f (powerDb b.probeBuff b.probeRet.toNat) b.now
        (detect_pattern (rec.take 4096))).countP isPublishE = 1 := by
  refine ⟨?_, rfl, rfl⟩
  rw [processFreq_trigger b f rec h1 h2 hfill]
  rfl

/-- A port behaviour that triggers a capture and fills the buffer in one
read. -/
noncomputable def triggerBehavior : FreqBehavior :=
  ⟨1, [((1 : ℝ), 0)], "20240101_000000", [zeroBuf]⟩

/-- Witness for C6 at the trigger behaviour. -/
theorem C6_publish_message_witness :
    processFreq triggerBehavior 873000000 = Except.ok
      (capturedEvents 873000000
        (powerDb triggerBehavior.probeBuff triggerBehavior.probeRet.toNat)
        triggerBehavior.now (detect_pattern (zeroBuf.take 4096))) := by
  have h1 : (0 : Int) < triggerBehavior.probeRet := by decide
  have h2 : THRESHOLD_DB < powerDb triggerBehavior.probeBuff
      triggerBehavior.probeRet.toNat := by
    show THRESHOLD_DB < powerDb [((1 : ℝ), 0)] 1
    have hb : powerDb [((1 : ℝ), 0)] 1 = 10 * Real.logb 10 (1 + 1e-12) := by
      rw [powerDb_eq _ _ (by norm_num) (by simp)]
      have hms : meanSqMag [((1 : ℝ), 0)] 1 = 1 := by
        unfold meanSqMag
        norm_num
      rw [hms]
    rw [hb]
    have hlog : 0 ≤ Real.logb 10 (1 + 1e-12) :=
      Real.logb_nonneg (by norm_num) (by norm_num)
    unfold THRESHOLD_DB
    nlinarith [hlog]
  have hfill : captureFillLoop samplesTotal zeroBuf 0 triggerBehavior.captureReads
      = FillResult.filled zeroBuf := by
    show captureFillLoop samplesTotal zeroBuf 0 [zeroBuf] = FillResult.filled zeroBuf
    exact captureFillLoop_exact samplesTotal zeroBuf zeroBuf []
      (by norm_num [samplesTotal, RECORD_SEC, SAMPLE_RATE])
      (by simp [zeroBuf]) (by simp [zeroBuf])
  exact (C6_publish_message triggerBehavior 873000000 zeroBuf h1 h2 hfill).1

/- ===== Claim C9: determinism, monotonicity, amplitude doubling ===== -/

/-- Double every sample's amplitude. -/
def doubleAmp (z : Cx) : Cx := (2 * z.1, 2 * z.2)

/-- Counterexample to claim C9 as stated: on the all-zero block the `1e-12`
floor dominates the logarithm, and doubling every sample's amplitude leaves
the power score exactly unchanged — an increase of 0 dB, not approximately
6.02 dB. -/
theorem C9_zero_block_counterexample :
    powerDb (List.map doubleAmp [((0 : ℝ), 0)]) 1 = powerDb [((0 : ℝ), 0)] 1 := by
  norm_num [doubleAmp]

theorem meanSqMag_map_double (b : List Cx) (r : Nat) :
    meanSqMag (b.map doubleAmp) r = 4 * meanSqMag b r := by
  unfold meanSqMag
  rw [← List.map_take, List.map_map]
  have hfun : ((fun z : Cx => z.1 ^ 2 + z.2 ^ 2) ∘ doubleAmp)
      = fun z : Cx => 4 * (z.1 ^ 2 + z.2 ^ 2) := by
    funext z
    simp only [Function.comp_apply, doubleAmp]
    ring
  rw [hfun, List.sum_map_mul_left, mul_div_assoc]

/-- Claim C9, amended: the Energy Detector is deterministic and strictly
monotone in mean power; and for every block whose mean squared magnitude is
at least `1e-6` (far above the `1e-12` floor), doubling every sample's
amplitude raises the score by `20*log10(2) ≈ 6.0206` dB, up to a loss of at
most `10*log10(1 + 1e-6)` dB caused by the floor.  The mean-power hypothesis
is necessary: on an all-zero block the increase is 0. -/
theorem C9_energy_detector_props :
    (∀ (b : List Cx) (r : Nat), powerDb b r = powerDb b r)
    ∧ (∀ (b₁ b₂ : List Cx) (r₁ r₂ : Nat), 0 < r₁ → r₁ ≤ b₁.length →
        0 < r₂ → r₂ ≤ b₂.length →
        meanSqMag b₁ r₁ < meanSqMag b₂ r₂ → powerDb b₁ r₁ < powerDb b₂ r₂)
    ∧ (∀ (b : List Cx) (r : Nat), 0 < r → r ≤ b.length →
        1e-6 ≤ meanSqMag b r →
        powerDb (b.map doubleAmp) r ≤ powerDb b r + 20 * Real.logb 10 2
        ∧ powerDb b r + 20 * Real.logb 10 2 - 10 * Real.logb 10 (1 + 1e-6)
            ≤ powerDb (b.map doubleAmp) r) := by
  refine ⟨fun b r => rfl, ?_, ?_⟩
  · intro b₁ b₂ r₁ r₂ h1 hl1 h2 hl2 hlt
    rw [powerDb_eq _ _ h1 hl1, powerDb_eq _ _ h2 hl2]
    have hm1 : 0 ≤ meanSqMag b₁ r₁ := meanSqMag_nonneg b₁ r₁
    have heps : (0 : ℝ) < 1e-12 := by norm_num
    have hx : (0 : ℝ) < meanSqMag b₁ r₁ + 1e-12 := by linarith
    have hstep : Real.logb 10 (meanSqMag b₁ r₁ + 1e-12)
        < Real.logb 10 (meanSqMag b₂ r₂ + 1e-12) :=
      Real.logb_lt_logb (by norm_num) hx (by linarith)
    linarith
  · intro b r hr hrl hm
    have hrl2 : r ≤ (b.map doubleAmp).length := by
      rw [List.length_map]
      exact hrl
    rw [powerDb_eq _ _ hr hrl2, powerDb_eq _ _ hr hrl, meanSqMag_map_double]
    have hm0 : (0 : ℝ) < meanSqMag b r := lt_of_lt_of_le (by norm_num) hm
    have hx : (0 : ℝ) < meanSqMag b r + 1e-12 := by linarith
    have hy : (0 : ℝ) < 4 * meanSqMag b r + 1e-12 := by linarith
    have h4 : Real.logb 10 (4 : ℝ) = 2 * Real.logb 10 2 := by
      rw [show (4 : ℝ) = 2 ^ 2 by norm_num, Real.logb_pow]
      push_cast
      ring
    have hmul : Real.logb 10 (4 * (meanSqMag b r + 1e-12))
        = Real.logb 10 4 + Real.logb 10 (meanSqMag b r + 1e-12) :=
      Real.logb_mul (by norm_num) (by linarith)
    constructor
    · have hle : (4 * meanSqMag b r + 1e-12 : ℝ) ≤ 4 * (meanSqMag b r + 1e-12) := by
        linarith
      have hlogle := Real.logb_le_logb_of_le (by norm_num : (1 : ℝ) < 10) hy hle
      rw [hmul] at hlogle
      linarith [hlogle, h4]
    · have hdivle : (4 * (meanSqMag b r + 1e-12)) / (1 + 1e-6)
          ≤ 4 * meanSqMag b r + 1e-12 := by
        rw [div_le_iff₀ (by norm_num : (0 : ℝ) < 1 + 1e-6)]
        nlinarith [hm]
      have hpos : (0 : ℝ) < (4 * (meanSqMag b r + 1e-12)) / (1 + 1e-6) := by positivity
      have hlogle := Real.logb_le_logb_of_le (by norm_num : (1 : ℝ) < 10) hpos hdivle
      have hdiveq : Real.logb 10 ((4 * (meanSqMag b r + 1e-12)) / (1 + 1e-6))
          = Real.logb 10 (4 * (meanSqMag b r + 1e-12)) - Real.logb 10 (1 + 1e-6) :=
        Real.logb_div (by positivity) (by norm_num)
      rw [hdiveq, hmul] at hlogle
      linarith [hlogle, h4]

/-- Witness for the amended C9 at concrete blocks. -/
theorem C9_energy_detector_props_witness :
    (meanSqMag [((0 : ℝ), 0)] 1 < meanSqMag [((1 : ℝ), 0)] 1
      ∧ powerDb [((0 : ℝ), 0)] 1 < powerDb [((1 : ℝ), 0)] 1)
    ∧ ((1e-6 : ℝ) ≤ meanSqMag [((1 : ℝ), 0)] 1
      ∧ powerDb (List.map doubleAmp [((1 : ℝ), 0)]) 1
          ≤ powerDb [((1 : ℝ), 0)] 1 + 20 * Real.logb 10 2) := by
  have hms0 : meanSqMag [((0 : ℝ), 0)] 1 = 0 := by
    unfold meanSqMag
    norm_num
  have hms1 : meanSqMag [((1 : ℝ), 0)] 1 = 1 := by
    unfold meanSqMag
    norm_num
  have hlt : meanSqMag [((0 : ℝ), 0)] 1 < meanSqMag [((1 : ℝ), 0)] 1 := by
    rw [hms0, hms1]
    norm_num
  have hge : (1e-6 : ℝ) ≤ meanSqMag [((1 : ℝ), 0)] 1 := by
    rw [hms1]
    norm_num
  refine ⟨⟨hlt, ?_⟩, hge, ?_⟩
  · exact C9_energy_detector_props.2.1 [((0 : ℝ), 0)] [((1 : ℝ), 0)] 1 1
      (by norm_num) (by simp) (by norm_num) (by simp) hlt
  · exact (C9_energy_detector_props.2.2 [((1 : ℝ), 0)] 1 (by norm_num) (by simp) hge).1
